import Mathlib

/-!
Shallow embedding of the SoftArch generation pipeline (DeepseekAgent,
ProjectGenerator, DiagramService / ProjectDiagram) together with theorems
checking the natural-language specification against it.

All JavaScript string scanning is modelled over `List Char`; machine strings
are Lean `String`s.  Braces, backticks and double quotes are named characters
so that scanners can be written uniformly.
-/

/-! ## Generic characters and string helpers -/

def lbrace : Char := Char.ofNat 123

def rbrace : Char := Char.ofNat 125

def btick : Char := Char.ofNat 96

def dquote : Char := Char.ofNat 34

/-- `listPrefixOf p l` holds when `p` is an initial segment of `l`. -/
def listPrefixOf : List Char → List Char → Bool
  | [], _ => true
  | _ :: _, [] => false
  | a :: p, b :: l => a == b && listPrefixOf p l

/-- `listContains pat l` holds when `pat` occurs contiguously inside `l`. -/
def listContains (pat : List Char) : List Char → Bool
  | [] => pat.isEmpty
  | c :: t => listPrefixOf pat (c :: t) || listContains pat t

/-- JavaScript `a.includes(b)`: `b` occurs as a contiguous substring of `a`. -/
def jsIncludes (s pat : String) : Bool :=
  listContains pat.toList s.toList

/-- Character list of a string, lower-cased (JS `toLowerCase`, ASCII range). -/
def lowerChars (s : String) : List Char :=
  s.toList.map Char.toLower

/-- JavaScript `a.toLowerCase()` as a Lean string. -/
def jsToLower (s : String) : String :=
  String.mk (lowerChars s)

/-! ## C1: JSON extraction in `generateArchitecture`

The source (`deepseekAgent.js`) extracts JSON with
`responseText.match(/\{[\s\S]*\}/)`: the leftmost `{` that is followed by a
later `}` opens the match, and the greedy quantifier extends it to the last
`}` of the whole text. -/

/-- Suffix of `s` starting at its first `lbrace`; `none` when there is none. -/
def dropToOpen : List Char → Option (List Char)
  | [] => none
  | c :: t => if c = lbrace then some (c :: t) else dropToOpen t

/-- Prefix of `v` ending at its last `rbrace`; `none` when there is none. -/
def cutAtLastClose : List Char → Option (List Char)
  | [] => none
  | c :: t =>
    match cutAtLastClose t with
    | some r => some (c :: r)
    | none => if c = rbrace then some [c] else none

/-- The slice of `s` matched by the JS regex `/\{[\s\S]*\}/`: from the first
`{` that has a later `}` up to the last `}` of the text. -/
def jsObjectMatch (s : List Char) : Option (List Char) :=
  match dropToOpen s with
  | none => none
  | some [] => none
  | some (c :: v) =>
    match cutAtLastClose v with
    | none => none
    | some r => some (c :: r)

/-- Modelled from the spec: `firstJsonObject(text)` scans for the first `{`
and returns the matching balanced slice, coping with embedded braces inside
JSON strings (string state with backslash escapes).  This function does not
appear in the source; it formalises the spec's description of the extraction
primitive, for comparison with `jsObjectMatch`. -/
def balancedScan : List Char → Nat → Bool → Bool → List Char → Option (List Char)
  | [], _, _, _, _ => none
  | c :: rest, depth, inStr, esc, acc =>
    if inStr then
      if esc then balancedScan rest depth inStr false (c :: acc)
      else if c = '\\' then balancedScan rest depth inStr true (c :: acc)
      else if c = dquote then balancedScan rest depth false false (c :: acc)
      else balancedScan rest depth inStr false (c :: acc)
    else if c = dquote then balancedScan rest depth true false (c :: acc)
    else if c = lbrace then balancedScan rest (depth + 1) false false (c :: acc)
    else if c = rbrace then
      if depth ≤ 1 then some ((c :: acc).reverse)
      else balancedScan rest (depth - 1) false false (c :: acc)
    else balancedScan rest depth false false (c :: acc)

/-- Modelled from the spec: the first balanced `{…}` slice of `s`. -/
def firstJsonObject (s : List Char) : Option (List Char) :=
  match dropToOpen s with
  | none => none
  | some u => balancedScan u 0 false false []

/-! ## C5: sanitisation of `generateCode` output

`generateCode` first applies JS `.trim()` to the LLM reply and then
`_cleanMarkdownDelimiters`, which chains five JS regex replaces:
`^```\w*\n` (first match, multiline), `\n```$` (first match, multiline),
`` ```\w*\n `` (all matches), `\n``` ` (all matches), and
`^//\s*filepath:.*$` (all matches, replaced by the empty string). -/

/-- JS `\w`: ASCII letter, digit or underscore. -/
def jsWordChar (c : Char) : Bool :=
  (('a' ≤ c && c ≤ 'z') || ('A' ≤ c && c ≤ 'Z') || ('0' ≤ c && c ≤ '9') || c == '_')

/-- JS `String.prototype.trim`: strip leading and trailing whitespace. -/
def jsTrim (l : List Char) : List Char :=
  ((l.dropWhile Char.isWhitespace).reverse.dropWhile Char.isWhitespace).reverse

/-- After an opening ` ``` `, consume `\w*` then a newline; return the rest. -/
def afterFenceOpen : List Char → Option (List Char)
  | [] => none
  | c :: t =>
    if c == '\n' then some t
    else if jsWordChar c then afterFenceOpen t
    else none

/-- Match `` ```\w*\n `` at the head of the list; return the remainder. -/
def matchFence : List Char → Option (List Char)
  | a :: b :: c :: t =>
    if a == btick && b == btick && c == btick then afterFenceOpen t else none
  | _ => none

/-- First replace: `code.replace(/^```[\w]*\n/m, '')` — remove the leftmost
fence line that starts a line. -/
def removeFirstFenceLine : Bool → List Char → List Char
  | _, [] => []
  | atStart, c :: rest =>
    if atStart then
      match matchFence (c :: rest) with
      | some rem => rem
      | none => c :: removeFirstFenceLine (c == '\n') rest
    else c :: removeFirstFenceLine (c == '\n') rest

/-- Does the list start with `\n```` ``` ```` followed by a line end? -/
def isCloseFenceHere : List Char → Bool
  | [] => false
  | c :: rest =>
    c == '\n' && listPrefixOf [btick, btick, btick] rest &&
      (match rest.drop 3 with | [] => true | d :: _ => d == '\n')

/-- Second replace: `cleaned.replace(/\n```$/m, '')` — remove the leftmost
newline-plus-fence that sits at a line end. -/
def removeFirstCloseFence : List Char → List Char
  | [] => []
  | c :: rest =>
    if isCloseFenceHere (c :: rest) then rest.drop 3
    else c :: removeFirstCloseFence rest

/-- Third replace: `cleaned.replace(/```[\w]*\n/gm, '')` — remove every fence
line, resuming the scan after each removed match.  The fuel argument bounds
the number of scan steps; `removeAllFenceLines` supplies the list length,
which always suffices because each step consumes at least one character. -/
def removeAllFenceLinesF : Nat → List Char → List Char
  | 0, l => l
  | _, [] => []
  | fuel + 1, c :: rest =>
    match matchFence (c :: rest) with
    | some rem => removeAllFenceLinesF fuel rem
    | none => c :: removeAllFenceLinesF fuel rest

def removeAllFenceLines (l : List Char) : List Char :=
  removeAllFenceLinesF l.length l

/-- Fourth replace: `cleaned.replace(/\n```/gm, '')` — remove every literal
newline-plus-fence, resuming after each match.  Fuel as in
`removeAllFenceLinesF`. -/
def removeAllNlFenceF : Nat → List Char → List Char
  | 0, l => l
  | _, [] => []
  | fuel + 1, c :: rest =>
    if c == '\n' && listPrefixOf [btick, btick, btick] rest then
      removeAllNlFenceF fuel (rest.drop 3)
    else c :: removeAllNlFenceF fuel rest

def removeAllNlFence (l : List Char) : List Char :=
  removeAllNlFenceF l.length l

/-- Match `//\s*filepath:.*` at a line start; return the remainder (which
begins with the newline that ended the line, or is empty). -/
def matchFilepathAt : List Char → Option (List Char)
  | c1 :: c2 :: t =>
    if c1 == '/' && c2 == '/' then
      if listPrefixOf "filepath:".toList (t.dropWhile Char.isWhitespace) then
        some (((t.dropWhile Char.isWhitespace).drop 9).dropWhile (fun c => c != '\n'))
      else none
    else none
  | _ => none

/-- Fifth replace: `cleaned.replace(/^\/\/\s*filepath:.*$/gm, '')` — blank
out every `// filepath: …` line (the line's newline survives).  Fuel as in
`removeAllFenceLinesF`. -/
def removeFilepathLinesF : Nat → Bool → List Char → List Char
  | 0, _, l => l
  | _, _, [] => []
  | fuel + 1, atStart, c :: rest =>
    if atStart then
      match matchFilepathAt (c :: rest) with
      | some rem => removeFilepathLinesF fuel false rem
      | none => c :: removeFilepathLinesF fuel (c == '\n') rest
    else c :: removeFilepathLinesF fuel (c == '\n') rest

def removeFilepathLines (l : List Char) : List Char :=
  removeFilepathLinesF l.length true l

/-- `_cleanMarkdownDelimiters` from `deepseekAgent.js`: the five replaces in
source order. -/
def cleanMarkdownDelimiters (l : List Char) : List Char :=
  removeFilepathLines
    (removeAllNlFence
      (removeAllFenceLines
        (removeFirstCloseFence
          (removeFirstFenceLine true l))))

/-- What `generateCode` does to a raw LLM reply before returning or caching
it: `content.trim()` followed by `_cleanMarkdownDelimiters`. -/
def generateCodeSanitize (l : List Char) : List Char :=
  cleanMarkdownDelimiters (jsTrim l)

/-- String-level wrapper used by the cache model. -/
def sanitizeStr (s : String) : String :=
  String.mk (generateCodeSanitize s.toList)

/-! ## Architecture data model -/

structure FolderSpec where
  path : String
  description : String
deriving DecidableEq, Repr

structure FileSpec where
  path : String
  description : String
  useTemplate : Bool
  templateType : Option String
deriving DecidableEq, Repr

structure Architecture where
  folders : List FolderSpec
  files : List FileSpec
deriving DecidableEq, Repr

/-! ## C2: `validateArchitecture` from `deepseekAgent.js`

The entity names extracted by the embedded LLM call are passed in as a
parameter (`ents`); everything else mirrors the source line by line.  The
repair block runs only when one of the four folder checks
(`f.path.includes('/models')` etc.) fails. -/

def hasModelsFolder (a : Architecture) : Bool :=
  a.folders.any (fun f => jsIncludes f.path "/models")

def hasControllersFolder (a : Architecture) : Bool :=
  a.folders.any (fun f => jsIncludes f.path "/controllers")

def hasRoutesFolder (a : Architecture) : Bool :=
  a.folders.any (fun f => jsIncludes f.path "/routes")

def hasConfigFolder (a : Architecture) : Bool :=
  a.folders.any (fun f => jsIncludes f.path "/config")

/-- All four essential-component checks pass, so the repair block is skipped. -/
def validateChecksPass (a : Architecture) : Bool :=
  hasModelsFolder a && hasControllersFolder a && hasRoutesFolder a && hasConfigFolder a

/-- The model/controller/route triple pushed for one extracted entity. -/
def entityTriple (entity : String) : List FileSpec :=
  let n := jsToLower entity
  [ ⟨"models/" ++ n ++ ".js", "Modelo para la entidad " ++ n, true, some "model"⟩,
    ⟨"controllers/" ++ n ++ "Controller.js", "Controlador CRUD para " ++ n, true, some "controller"⟩,
    ⟨"routes/" ++ n ++ "Routes.js", "Rutas API para " ++ n, true, some "route"⟩ ]

def entityFiles (ents : List String) : List FileSpec :=
  ents.flatMap entityTriple

def isMainPath (p : String) : Bool :=
  p == "app.js" || p == "index.js" || p == "server.js"

def appMainFile : FileSpec :=
  ⟨"app.js", "Archivo principal de la aplicación", true, some "main"⟩

def packageJsonFile : FileSpec :=
  ⟨"package.json", "Configuración del proyecto y dependencias", true, some "config"⟩

def envExampleFile : FileSpec :=
  ⟨".env.example", "Variables de entorno de ejemplo", true, some "config"⟩

/-- The folder list after the repair block's four conditional pushes. -/
def repairedFolders (a : Architecture) : List FolderSpec :=
  a.folders
    ++ (if hasModelsFolder a then [] else [⟨"models", "Modelos de datos y esquemas"⟩])
    ++ (if hasControllersFolder a then []
        else [⟨"controllers", "Controladores para la lógica de negocio"⟩])
    ++ (if hasRoutesFolder a then [] else [⟨"routes", "Definición de rutas API"⟩])
    ++ (if hasConfigFolder a then [] else [⟨"config", "Archivos de configuración"⟩])

/-- Files after the per-entity model/controller/route pushes. -/
def filesWithEntities (ents : List String) (a : Architecture) : List FileSpec :=
  a.files ++ entityFiles ents

/-- Files after the `app.js` push (added only when no entry-point path is
present). -/
def filesWithMain (ents : List String) (a : Architecture) : List FileSpec :=
  if (filesWithEntities ents a).any (fun f => isMainPath f.path) then
    filesWithEntities ents a
  else filesWithEntities ents a ++ [appMainFile]

/-- Files after the `package.json` push. -/
def filesWithPkg (ents : List String) (a : Architecture) : List FileSpec :=
  if (filesWithMain ents a).any (fun f => f.path == "package.json") then
    filesWithMain ents a
  else filesWithMain ents a ++ [packageJsonFile]

/-- Files after the `.env.example` push. -/
def filesWithEnv (ents : List String) (a : Architecture) : List FileSpec :=
  if (filesWithPkg ents a).any (fun f => f.path == ".env.example" || f.path == ".env") then
    filesWithPkg ents a
  else filesWithPkg ents a ++ [envExampleFile]

/-- `validateArchitecture(architecture, description)`; `ents` stands for the
entity list parsed from the embedded entity-extraction LLM call.  The repair
block runs only when one of the four checks fails. -/
def validateArchitecture (ents : List String) (a : Architecture) : Architecture :=
  if validateChecksPass a then a
  else { folders := repairedFolders a, files := filesWithEnv ents a }

/-! ## C3/C4: file classification and category ordering in
`generateCompleteProject` (`projectGenerator.js`) -/

/-- `_getFileTypeFromPath`: lower-case the path, then test for `/models/`,
`/controllers/`, `/routes/` (with either slash style), in that order. -/
def getFileTypeFromPath (p : String) : Option String :=
  if jsIncludes (jsToLower p) "/models/" || jsIncludes (jsToLower p) "\\models\\" then
    some "model"
  else if jsIncludes (jsToLower p) "/controllers/" || jsIncludes (jsToLower p) "\\controllers\\" then
    some "controller"
  else if jsIncludes (jsToLower p) "/routes/" || jsIncludes (jsToLower p) "\\routes\\" then
    some "route"
  else none

/-- Predicate for the configuration category (`configFiles` filter). -/
def isConfigFile (f : FileSpec) : Bool :=
  jsIncludes f.path "config/" || jsIncludes f.path "package.json" ||
    jsIncludes f.path ".env" || jsIncludes f.path "app.js" ||
    jsIncludes f.path "middleware/"

def isModelFile (f : FileSpec) : Bool := getFileTypeFromPath f.path == some "model"

def isControllerFile (f : FileSpec) : Bool := getFileTypeFromPath f.path == some "controller"

def isRouteFile (f : FileSpec) : Bool := getFileTypeFromPath f.path == some "route"

def isRemainingFile (f : FileSpec) : Bool :=
  !isConfigFile f && !isModelFile f && !isControllerFile f && !isRouteFile f

def configFilesOf (a : Architecture) : List FileSpec := a.files.filter isConfigFile

def modelFilesOf (a : Architecture) : List FileSpec := a.files.filter isModelFile

def controllerFilesOf (a : Architecture) : List FileSpec := a.files.filter isControllerFile

def routeFilesOf (a : Architecture) : List FileSpec := a.files.filter isRouteFile

def remainingFilesOf (a : Architecture) : List FileSpec := a.files.filter isRemainingFile

/-- The full sequence of per-file generation steps of phase 4 on a fresh run:
the five category lists, in the order the source processes them. -/
def generationSequence (a : Architecture) : List FileSpec :=
  configFilesOf a ++ modelFilesOf a ++ controllerFilesOf a ++ routeFilesOf a ++ remainingFilesOf a

/-- The category labels passed to `generateFileCategory` (and stored in the
recovery file as `currentCategory`). -/
def configLabel : String := "🔧 Generando archivos de configuración"

def modelsLabel : String := "📦 Generando modelos"

def controllersLabel : String := "🎮 Generando controladores"

def routesLabel : String := "🛣️ Generando rutas"

def remainingLabel : String := "📄 Generando archivos adicionales"

/-- The five per-category start indices computed from a recovered
`currentCategory`/`currentCategoryIndex` pair: the matched category resumes
at `idx + 1`, every other category restarts at 0. -/
def startIndices (currentCategory : Option String) (idx : Nat) :
    Nat × Nat × Nat × Nat × Nat :=
  match currentCategory with
  | none => (0, 0, 0, 0, 0)
  | some c =>
    if jsIncludes c "configuración" then (idx + 1, 0, 0, 0, 0)
    else if jsIncludes c "modelos" then (0, idx + 1, 0, 0, 0)
    else if jsIncludes c "controladores" then (0, 0, idx + 1, 0, 0)
    else if jsIncludes c "rutas" then (0, 0, 0, idx + 1, 0)
    else if jsIncludes c "adicionales" then (0, 0, 0, 0, idx + 1)
    else (0, 0, 0, 0, 0)

/-- State threaded through `generateFileCategory`: the running `fileCounter`,
the `generatedFiles` paths, and the set of paths written to disk. -/
structure GenState where
  counter : Nat
  generated : List String
  written : List String
deriving Repr

/-- One `generateFileCategory` loop body over the files still to process.
`ok f` tells whether generating `f` succeeds (the per-file LLM/template/fs
work); on failure the loop continues when `continueOnError` is set and
otherwise aborts, reporting `false`. -/
def runCategoryFiles (ok : FileSpec → Bool) (continueOnError : Bool) :
    List FileSpec → GenState → GenState × Bool
  | [], st => (st, true)
  | f :: rest, st =>
    let c' := st.counter + 1
    if ok f then
      runCategoryFiles ok continueOnError rest
        ⟨c', st.generated ++ [f.path], st.written ++ [f.path]⟩
    else if continueOnError then
      runCategoryFiles ok continueOnError rest ⟨c', st.generated, st.written⟩
    else (⟨c', st.generated, st.written⟩, false)

/-- `generateFileCategory(files, label, startIndex)`: process the files from
`start` on. -/
def runCategory (ok : FileSpec → Bool) (continueOnError : Bool)
    (files : List FileSpec) (start : Nat) (st : GenState) : GenState × Bool :=
  runCategoryFiles ok continueOnError (files.drop start) st

/-- The five categories paired with their start indices, in processing
order. -/
def categoryPlan (a : Architecture) (starts : Nat × Nat × Nat × Nat × Nat) :
    List (List FileSpec × Nat) :=
  [(configFilesOf a, starts.1), (modelFilesOf a, starts.2.1),
   (controllerFilesOf a, starts.2.2.1), (routeFilesOf a, starts.2.2.2.1),
   (remainingFilesOf a, starts.2.2.2.2)]

/-- One gated category step:
`if (success && start < files.length) success = await generateFileCategory(…)`. -/
def runCategoriesStep (ok : FileSpec → Bool) (continueOnError : Bool)
    (acc : GenState × Bool) (c : List FileSpec × Nat) : GenState × Bool :=
  if acc.2 then runCategory ok continueOnError c.1 c.2 acc.1 else acc

/-- The chained category runs of phase 4, each gated on the previous
success flag. -/
def runAllCategories (ok : FileSpec → Bool) (continueOnError : Bool)
    (a : Architecture) (starts : Nat × Nat × Nat × Nat × Nat) (st : GenState) :
    GenState × Bool :=
  (categoryPlan a starts).foldl (runCategoriesStep ok continueOnError) (st, true)

/-! ## C6: the code cache of `generateCode` (`deepseekAgent.js`) -/

/-- Characters after the last `/` (JS `split('/').pop()` on a path, and also
`path.basename` for the slash-separated relative paths used here). -/
def afterLastSlash (l : List Char) : List Char :=
  l.foldl (fun acc c => if c == '/' then [] else acc ++ [c]) []

/-- JS `path.dirname`: characters before the last `/`, or `"."` when the
path has no slash. -/
def dirnameChars (l : List Char) : List Char :=
  match (l.reverse.dropWhile (fun c => c != '/')) with
  | [] => ['.']
  | _ :: r => r.reverse

def basenameOf (p : String) : String := String.mk (afterLastSlash p.toList)

/-- Generation context: only the field the cache key reads is modelled. -/
structure CodeCtx where
  database : Option String
deriving DecidableEq, Repr

/-- `_getCacheKey(filePath, context)`:
`` `${fileDir}_${fileName}_${dbType}` `` with
`fileDir = path.dirname(filePath).split('/').pop()`. -/
def getCacheKey (p : String) (ctx : CodeCtx) : String :=
  String.mk (afterLastSlash (dirnameChars p.toList)) ++ "_" ++ basenameOf p ++ "_"
    ++ ctx.database.getD "generic"

/-- `_isCacheable(filePath)`. -/
def isCacheable (p : String) : Bool :=
  jsIncludes p "/middleware/auth.js" || jsIncludes p "/config/database.js" ||
    jsIncludes p "/utils/" || jsIncludes p "/helpers/"

/-- The process-local `codeCache` map, as an association list. -/
abbrev CodeCache := List (String × String)

def cacheLookup (key : String) (cache : CodeCache) : Option String :=
  (cache.find? (fun e => e.1 == key)).map Prod.snd

structure CodeCallResult where
  code : String
  cache : CodeCache
  usedLLM : Bool
deriving Repr

/-- `generateCode(filePath, description, context)` restricted to its cache
behaviour.  `oracle` is the raw LLM reply this call would receive; on a cache
hit no LLM request is made and the stored string is returned unchanged. -/
def generateCodeCached (oracle : String) (cache : CodeCache) (p : String)
    (ctx : CodeCtx) : CodeCallResult :=
  let key := getCacheKey p ctx
  match cacheLookup key cache with
  | some stored => ⟨stored, cache, false⟩
  | none =>
    let code := sanitizeStr oracle
    if isCacheable p then ⟨code, (key, code) :: cache, true⟩
    else ⟨code, cache, true⟩

/-! ## C7: `saveDiagram` (`diagramService.js`) and `findByName`
(`projectDiagram.js`) over a list-backed document store -/

structure DiagramData where
  nodes : List String
  edges : List String
  groups : List String
deriving DecidableEq, Repr

structure StoredRecord where
  oid : Nat
  name : String
  description : String
  architecture : Architecture
  diagram : DiagramData
  outputPath : String
deriving DecidableEq, Repr

abbrev DiagramStore := List StoredRecord

/-- A character that is special in a JS `RegExp` pattern string. -/
def regexMetachar (c : Char) : Bool :=
  c == '^' || c == '$' || c == '\\' || c == '.' || c == '*' || c == '+' || c == '?' ||
    c == '(' || c == ')' || c == '[' || c == ']' || c == lbrace || c == rbrace || c == '|'

/-- A name that `new RegExp(name, 'i')` treats as a literal: no character of
the name is a regex metacharacter.  `ProjectDiagram.findByName` builds its
regex from the raw project name, so only names in this domain match as plain
text; a name such as `a^` matches nothing and `(` makes `new RegExp` throw. -/
def isLiteralRegexName (s : String) : Bool :=
  !s.toList.any regexMetachar

/-- `new RegExp(name, 'i')` applied with `test`-like matching to a field.
This embedding is the case-insensitive substring test, which is what the JS
regex computes exactly when `isLiteralRegexName name` holds; the theorems
about `saveDiagram`/`findByName` carry that restriction as a hypothesis. -/
def regexTestCI (pat s : String) : Bool :=
  listContains (lowerChars pat) (lowerChars s)

/-- `ProjectDiagramSchema.statics.findByName`: `findOne` with the
case-insensitive regex built from `name`; the first matching document. -/
def findByName (name : String) (store : DiagramStore) : Option StoredRecord :=
  store.find? (fun r => regexTestCI name r.name)

structure DiagramInput where
  name : String
  description : String
  architecture : Architecture
  diagram : DiagramData
  outputPath : String
deriving DecidableEq, Repr

/-- Update the first record satisfying `p` in place. -/
def updateFirst (p : StoredRecord → Bool) (f : StoredRecord → StoredRecord) :
    DiagramStore → DiagramStore
  | [] => []
  | r :: rest => if p r then f r :: rest else r :: updateFirst p f rest

def freshOid (store : DiagramStore) : Nat :=
  (store.map StoredRecord.oid).foldl max 0 + 1

/-- The in-place field update `saveDiagram` performs on an existing document
(every field except `name` and the identity). -/
def overwriteFields (d : DiagramInput) (r : StoredRecord) : StoredRecord :=
  { r with description := d.description, architecture := d.architecture,
           diagram := d.diagram, outputPath := d.outputPath }

/-- `DiagramService.saveDiagram(projectData)`: look the name up with
`findByName`; update the found document in place, else insert a new one.
Returns the new store and the stored document. -/
def saveDiagram (d : DiagramInput) (store : DiagramStore) :
    DiagramStore × StoredRecord :=
  match findByName d.name store with
  | some r =>
    let r' := overwriteFields d r
    (updateFirst (fun x => regexTestCI d.name x.name) (fun _ => r') store, r')
  | none =>
    let r : StoredRecord :=
      ⟨freshOid store, d.name, d.description, d.architecture, d.diagram, d.outputPath⟩
    (store ++ [r], r)

/-! ## C4/C8/C9: the `generateCompleteProject` run

The run is modelled as a pure function over oracle outcomes: per-file
generation success, the diagram build, the repository save, and the ZIP
step.  The filesystem is the list of relative paths written under
`<output>/`; writes by `_saveRecoveryState` add `.recovery.json`, successful
completion removes it (source lines 730–738). -/

def recoveryName : String := ".recovery.json"

/-- The fields of a recovered `.recovery.json` the resume logic reads. -/
structure RecoveryState where
  architecture : Architecture
  fileCounter : Nat
  totalFiles : Nat
  currentCategory : Option String
  currentCategoryIndex : Nat
  generatedFiles : List String
deriving Repr

structure RunOptions where
  includeGlobalQuery : Bool
  continueOnError : Bool
  generateZip : Bool
deriving Repr

structure RunOracles where
  fileOk : FileSpec → Bool
  diagramOutcome : Except String DiagramData
  saveOutcome : DiagramData → Except String Nat
  globalQueryOk : Bool
  zipOk : Bool
  now : String

/-- The local sidecar written when the repository save fails: exactly the
keys `architecture`, `diagram`, `createdAt` (source lines 704–711). -/
structure SidecarFile where
  architecture : Architecture
  diagram : DiagramData
  createdAt : String
deriving DecidableEq, Repr

/-- Phase 6 (source lines 676–716): build the diagram, try the repository
save, degrade to the sidecar on save failure, swallow diagram errors. -/
def phase6 (arch : Architecture) (o : RunOracles) :
    Option Nat × Option SidecarFile × Option DiagramData :=
  match o.diagramOutcome with
  | .error _ => (none, none, none)
  | .ok d =>
    match o.saveOutcome d with
    | .ok i => (some i, none, some d)
    | .error _ => (none, some ⟨arch, d, o.now⟩, some d)

structure RunResult where
  success : Bool
  counter : Nat
  generated : List String
  written : List String
  diagramId : Option Nat
  sidecar : Option SidecarFile
  diagram : Option DiagramData
  zipped : Bool
deriving Repr

/-- Whether the architecture already carries a globalQuery file
(source lines 623–625). -/
def hasGlobalQueryFile (a : Architecture) : Bool :=
  a.files.any (fun f => jsIncludes f.path "globalQuery.js" || jsIncludes f.path "global-query.js")

/-- The architecture a run works with: the recovered one on resume, the
freshly produced one otherwise (phase 1 is skipped when resuming). -/
def archUsed (arch0 : Architecture) : Option RecoveryState → Architecture
  | some r => r.architecture
  | none => arch0

def counterInit : Option RecoveryState → Nat
  | some r => r.fileCounter
  | none => 0

def generatedInit : Option RecoveryState → List String
  | some r => r.generatedFiles
  | none => []

def startsInit : Option RecoveryState → Nat × Nat × Nat × Nat × Nat
  | some r => startIndices r.currentCategory r.currentCategoryIndex
  | none => (0, 0, 0, 0, 0)

/-- Phase 4: the five gated category runs.  The initial written set holds the
recovery checkpoint written after phase 1 (`phase: 'architecture_ready'`). -/
def genPhase (arch0 : Architecture) (recovery : Option RecoveryState)
    (opts : RunOptions) (o : RunOracles) : GenState × Bool :=
  runAllCategories o.fileOk opts.continueOnError (archUsed arch0 recovery)
    (startsInit recovery)
    ⟨counterInit recovery, generatedInit recovery, [recoveryName]⟩

/-- The globalQuery post phase runs when generation succeeded, the option is
set, and the architecture has no globalQuery file (source lines 622–627). -/
def gqTrigger (arch0 : Architecture) (recovery : Option RecoveryState)
    (opts : RunOptions) (o : RunOracles) : Bool :=
  (genPhase arch0 recovery opts o).2 && opts.includeGlobalQuery &&
    !hasGlobalQueryFile (archUsed arch0 recovery)

/-- Generation state after the optional globalQuery write. -/
def postGqState (arch0 : Architecture) (recovery : Option RecoveryState)
    (opts : RunOptions) (o : RunOracles) : GenState :=
  if gqTrigger arch0 recovery opts o && o.globalQueryOk then
    ⟨(genPhase arch0 recovery opts o).1.counter,
     (genPhase arch0 recovery opts o).1.generated ++ ["routes/globalQuery.js"],
     (genPhase arch0 recovery opts o).1.written ++ ["routes/globalQuery.js"]⟩
  else (genPhase arch0 recovery opts o).1

/-- The run's success flag: generation success, degraded by a globalQuery
failure when `continueOnError` is off (source lines 640–645). -/
def runSuccess (arch0 : Architecture) (recovery : Option RecoveryState)
    (opts : RunOptions) (o : RunOracles) : Bool :=
  if gqTrigger arch0 recovery opts o && !o.globalQueryOk then
    (genPhase arch0 recovery opts o).2 && opts.continueOnError
  else (genPhase arch0 recovery opts o).2

/-- Written paths after phase 6 (the sidecar `diagram.json` is added exactly
when the repository save failed). -/
def writtenAfterP6 (arch0 : Architecture) (recovery : Option RecoveryState)
    (opts : RunOptions) (o : RunOracles) : List String :=
  match (phase6 (archUsed arch0 recovery) o).2.1 with
  | some _ => (postGqState arch0 recovery opts o).written ++ ["diagram.json"]
  | none => (postGqState arch0 recovery opts o).written

/-- `generateCompleteProject(description, outputPath, options)`.  On a fresh
run `recovery` is `none` and `arch0` is the (validated or default)
architecture phase 1 produces; on resume `recovery` carries the parsed
`.recovery.json` and the source skips phase 1, restores
`architecture`/`fileCounter`/`generatedFiles`, and derives the five start
indices from `currentCategory`/`currentCategoryIndex`.  Phases 6 and 7 run
regardless of generation success; the recovery file is removed only on
success (source lines 730–738). -/
def generateCompleteProject (arch0 : Architecture) (recovery : Option RecoveryState)
    (opts : RunOptions) (o : RunOracles) : RunResult :=
  { success := runSuccess arch0 recovery opts o,
    counter := (postGqState arch0 recovery opts o).counter,
    generated := (postGqState arch0 recovery opts o).generated,
    written :=
      if runSuccess arch0 recovery opts o then
        (writtenAfterP6 arch0 recovery opts o).filter (fun p => p != recoveryName)
      else writtenAfterP6 arch0 recovery opts o,
    diagramId := (phase6 (archUsed arch0 recovery) o).1,
    sidecar := (phase6 (archUsed arch0 recovery) o).2.1,
    diagram := (phase6 (archUsed arch0 recovery) o).2.2,
    zipped := opts.generateZip && o.zipOk }

/-! ## C10: `generateRecommendation` (`deepseekAgent.js`) -/

structure Recommendation where
  database : String
  framework : String
  auth : String
  includeGraphQL : Bool
  includeWebsockets : Bool
  includeGlobalQuery : Bool
  recommendations : List String
  suggestions : List String
deriving DecidableEq, Repr

/-- The JSON object extracted from a successful reply: any subset of the
recommendation keys may be present. -/
structure PartialRecommendation where
  database : Option String
  framework : Option String
  auth : Option String
  includeGraphQL : Option Bool
  includeWebsockets : Option Bool
  includeGlobalQuery : Option Bool
  recommendations : Option (List String)
  suggestions : Option (List String)
deriving DecidableEq, Repr

/-- `defaultRecommendation` from the success path. -/
def defaultRecommendation : Recommendation :=
  ⟨"MongoDB", "Express", "JWT", false, false, false, [], []⟩

/-- The literal returned from the catch block. -/
def errorRecommendation : Recommendation :=
  { defaultRecommendation with
    recommendations := ["No se pudieron obtener recomendaciones personalizadas debido a un error."] }

/-- `{ ...defaultRecommendation, ...recommendation }`. -/
def mergeRecommendation (p : PartialRecommendation) : Recommendation :=
  ⟨p.database.getD defaultRecommendation.database,
   p.framework.getD defaultRecommendation.framework,
   p.auth.getD defaultRecommendation.auth,
   p.includeGraphQL.getD defaultRecommendation.includeGraphQL,
   p.includeWebsockets.getD defaultRecommendation.includeWebsockets,
   p.includeGlobalQuery.getD defaultRecommendation.includeGlobalQuery,
   p.recommendations.getD defaultRecommendation.recommendations,
   p.suggestions.getD defaultRecommendation.suggestions⟩

/-- `generateRecommendation(description, prompt)`. The `outcome` parameter
packs every failure the try block can hit — transport error, no extractable
JSON, JSON parse error — into `Except.error`; a success carries the parsed
object with its optional keys. -/
def generateRecommendation (outcome : Except String PartialRecommendation) :
    Recommendation :=
  match outcome with
  | .error _ => errorRecommendation
  | .ok p => mergeRecommendation p

/-! ## Concrete inputs used by counterexamples and witnesses -/

/-- `a{"k":1} }` — prose containing a balanced JSON object followed by a
stray closing brace. -/
def demoC1Text : List Char :=
  ['a', lbrace, dquote, 'k', dquote, ':', '1', rbrace, ' ', rbrace]

/-- Architecture whose folder paths pass all four `validateArchitecture`
checks but whose file list is empty. -/
def demoArchC2 : Architecture :=
  ⟨[⟨"src/models", "m"⟩, ⟨"src/controllers", "c"⟩, ⟨"src/routes", "r"⟩, ⟨"src/config", "k"⟩], []⟩

/-- A file that is both a configuration file (path contains `app.js`) and a
route file (path contains `/routes/`). -/
def demoFileC3 : FileSpec := ⟨"src/routes/app.js", "main file", true, some "main"⟩

def demoArchC3 : Architecture := ⟨[], [demoFileC3]⟩

/-- Two configuration files followed by three model files. -/
def demoArchC4 : Architecture :=
  ⟨[],
   [⟨"package.json", "manifest", true, some "config"⟩,
    ⟨".env.example", "env", true, some "config"⟩,
    ⟨"src/models/a.js", "model a", true, some "model"⟩,
    ⟨"src/models/b.js", "model b", true, some "model"⟩,
    ⟨"src/models/c.js", "model c", true, some "model"⟩]⟩

/-- Recovery snapshot of a run interrupted while generating the model at
category index 1, after 4 of 5 files. -/
def demoRecoveryC4 : RecoveryState :=
  ⟨demoArchC4, 4, 5, some modelsLabel, 1,
   ["package.json", ".env.example", "src/models/a.js", "src/models/b.js"]⟩

def demoOpts : RunOptions := ⟨false, false, false⟩

def demoDiagram : DiagramData := ⟨["n1"], ["e1"], ["g1"]⟩

def demoOracles : RunOracles :=
  ⟨fun _ => true, .ok demoDiagram, fun _ => .ok 7, true, true, "2025-01-01T00:00:00.000Z"⟩

/-- Oracles whose repository save fails. -/
def demoOraclesSaveFail : RunOracles :=
  ⟨fun _ => true, .ok demoDiagram, fun _ => .error "connect ECONNREFUSED", true, true,
   "2025-01-01T00:00:00.000Z"⟩

/-- The mock LLM reply of the fence-stripping scenario:
`` ```javascript\nconst x=1;\n``` ``. -/
def demoFencedReply : List Char :=
  btick :: btick :: btick ::
    ("javascript".toList ++ '\n' :: ("const x=1;".toList ++ '\n' :: [btick, btick, btick]))

/-- A cacheable path and a non-cacheable path sharing the same cache key. -/
def demoCacheablePath : String := "src/utils/x.js"

def demoNonCacheablePath : String := "utils/x.js"

def demoCtx : CodeCtx := ⟨some "MongoDB"⟩

def demoStoreC7 : DiagramStore :=
  [⟨0, "SuperUser", "old description", ⟨[], []⟩, ⟨[], [], []⟩, "old/path"⟩]

def demoInputC7 : DiagramInput :=
  ⟨"user", "new description", ⟨[], []⟩, demoDiagram, "new/path"⟩

/-! # Theorems -/

/-! ## Generic list lemmas for the embedded string scanners -/

theorem listPrefixOf_iff (p l : List Char) :
    listPrefixOf p l = true ↔ ∃ v, l = p ++ v := by
  induction p generalizing l with
  | nil => simp [listPrefixOf]
  | cons a p ih =>
    cases l with
    | nil => simp [listPrefixOf]
    | cons b l =>
      simp only [listPrefixOf, Bool.and_eq_true, beq_iff_eq, ih, List.cons_append,
        List.cons.injEq]
      constructor
      · rintro ⟨rfl, v, rfl⟩; exact ⟨v, rfl, rfl⟩
      · rintro ⟨v, rfl, rfl⟩; exact ⟨rfl, v, rfl⟩

theorem listContains_iff (pat l : List Char) :
    listContains pat l = true ↔ ∃ u v, l = u ++ pat ++ v := by
  induction l with
  | nil =>
    simp only [listContains, List.isEmpty_iff]
    constructor
    · rintro rfl; exact ⟨[], [], rfl⟩
    · rintro ⟨u, v, h⟩
      rcases List.append_eq_nil.mp h.symm with ⟨h1, h2⟩
      exact (List.append_eq_nil.mp h1).2
  | cons c t ih =>
    simp only [listContains, Bool.or_eq_true, listPrefixOf_iff, ih]
    constructor
    · rintro (⟨v, hv⟩ | ⟨u, v, rfl⟩)
      · exact ⟨[], v, by simpa using hv⟩
      · exact ⟨c :: u, v, rfl⟩
    · rintro ⟨u, v, h⟩
      cases u with
      | nil => exact Or.inl ⟨v, by simpa using h⟩
      | cons x u =>
        simp only [List.cons_append, List.cons.injEq] at h
        exact Or.inr ⟨u, v, h.2⟩

theorem listPrefixOf_refl (l : List Char) : listPrefixOf l l = true := by
  induction l with
  | nil => rfl
  | cons c t ih => simp [listPrefixOf, ih]

theorem listContains_self (l : List Char) : listContains l l = true := by
  cases l with
  | nil => rfl
  | cons c t => simp [listContains, listPrefixOf_refl]

theorem regexTestCI_self (s : String) : regexTestCI s s = true :=
  listContains_self (lowerChars s)

theorem find?_append_none {α : Type} (p : α → Bool) (l₁ l₂ : List α)
    (h : l₁.find? p = none) : (l₁ ++ l₂).find? p = l₂.find? p := by
  induction l₁ with
  | nil => rfl
  | cons a t ih =>
    rcases hpa : p a with _ | _
    · simp only [List.cons_append, List.find?_cons, hpa, cond_false] at h ⊢
      exact ih h
    · simp [List.find?_cons, hpa] at h

theorem count_filter_eq {α : Type} [DecidableEq α] (p : α → Bool) (a : α)
    (l : List α) :
    List.count a (l.filter p) = if p a then List.count a l else 0 := by
  induction l with
  | nil => simp
  | cons b t ih =>
    by_cases hb : p b
    · by_cases hab : a = b
      · subst hab; simp [List.filter_cons, hb, List.count_cons, ih]
      · simp [List.filter_cons, hb, List.count_cons, ih, hab, Ne.symm hab]
    · by_cases hab : a = b
      · subst hab; simp [List.filter_cons, hb, List.count_cons, ih]
      · simp [List.filter_cons, hb, List.count_cons, ih, hab, Ne.symm hab]

/-! ## C10 -/

/-- C10: `generateRecommendation` is total over its error cases — every
failure (transport or extraction) yields the complete default recommendation
(database `MongoDB`, framework `Express`, auth `JWT`, all three include
flags false, recommendations and suggestions arrays present), and on success
every key absent from the extracted JSON object is filled in from the same
defaults. -/
theorem c10_recommendation_defaults :
    (∀ e, generateRecommendation (.error e) =
      ⟨"MongoDB", "Express", "JWT", false, false, false,
       ["No se pudieron obtener recomendaciones personalizadas debido a un error."], []⟩)
  ∧ (∀ p, generateRecommendation (.ok p) =
      ⟨p.database.getD "MongoDB", p.framework.getD "Express", p.auth.getD "JWT",
       p.includeGraphQL.getD false, p.includeWebsockets.getD false,
       p.includeGlobalQuery.getD false, p.recommendations.getD [],
       p.suggestions.getD []⟩) :=
  ⟨fun _ => rfl, fun _ => rfl⟩

/-! ## C2 -/

/-- C2 counterexample: an architecture whose folder paths pass all four
checks (`src/models`, `src/controllers`, `src/routes`, `src/config`) but
whose file list is empty is returned unchanged by `validateArchitecture`:
no entry point, no `package.json`, no `.env.example` is added, contradicting
the claim that the repairer guarantees them for every input. -/
theorem c2_repair_counterexample :
    validateArchitecture [] demoArchC2 = demoArchC2 ∧ demoArchC2.files = [] :=
  ⟨by decide, rfl⟩

/-! ## C3 -/

/-- C3 counterexample: the file `src/routes/app.js` is both a configuration
file (its path contains `app.js`) and a route file (its path contains
`/routes/`), so it occurs twice in the generation sequence — the five
categories are not pairwise disjoint and the file is not generated exactly
once. -/
theorem c3_partition_counterexample :
    List.count demoFileC3 (generationSequence demoArchC3) = 2 ∧
      demoArchC3.files = [demoFileC3] := by
  exact ⟨by decide, rfl⟩

/-- C3 amended: phase 4 processes the five categories strictly in the order
configuration, models, controllers, routes, remainder, preserving the
architecture's file order inside each category (each category is a filter of
`files`), but the categories are not pairwise disjoint: a file is generated
once — except that a file whose path matches both a configuration pattern
and a role directory (`/models/`, `/controllers/`, `/routes/`) is generated
once per category, i.e. twice. -/
theorem c3_partition_multiplicity (a : Architecture) (f : FileSpec) :
    List.count f (generationSequence a) =
      (if isConfigFile f = true ∧ (getFileTypeFromPath f.path).isSome = true
        then 2 else 1) * List.count f a.files := by
  have hrem : isRemainingFile f =
      (!isConfigFile f && !isModelFile f && !isControllerFile f && !isRouteFile f) := rfl
  have hcases : getFileTypeFromPath f.path = some "model" ∨
      getFileTypeFromPath f.path = some "controller" ∨
      getFileTypeFromPath f.path = some "route" ∨
      getFileTypeFromPath f.path = none := by
    unfold getFileTypeFromPath
    split_ifs <;> simp
  simp only [generationSequence, configFilesOf, modelFilesOf, controllerFilesOf,
    routeFilesOf, remainingFilesOf, List.count_append, count_filter_eq]
  rcases hcases with h | h | h | h <;>
    by_cases hc : isConfigFile f <;>
      simp [isModelFile, isControllerFile, isRouteFile, isRemainingFile, h, hc] <;>
        omega

/-! ## C6 -/

/-- C6 counterexample: `utils/x.js` is not cacheable (`_isCacheable` wants a
leading slash in `/utils/`), yet after the cacheable file `src/utils/x.js`
has been generated, a call for `utils/x.js` shares its cache key
`utils_x.js_MongoDB` and is served from the cache without reaching the LLM —
contradicting "its calls always reach the LLM". -/
theorem c6_cache_counterexample :
    isCacheable demoNonCacheablePath = false ∧
      getCacheKey demoNonCacheablePath demoCtx = getCacheKey demoCacheablePath demoCtx ∧
      (generateCodeCached "const b=2;"
        (generateCodeCached "const a=1;" [] demoCacheablePath demoCtx).cache
        demoNonCacheablePath demoCtx).usedLLM = false := by
  refine ⟨by decide, by decide, by decide⟩

/-- C6 amended: two calls to `generateCode` whose cache keys
(parent-directory basename, filename, database kind) agree, the first for a
cacheable file, return the same string and the second call issues no LLM
request; a non-cacheable file is never stored in the cache; but a
non-cacheable file's call reaches the LLM only when its key is not already
in the cache (a key collision with a previously stored cacheable file is
served from the cache). -/
theorem c6_cache_amended :
    (∀ oracle1 oracle2 cache p1 p2 ctx, isCacheable p1 = true →
      getCacheKey p2 ctx = getCacheKey p1 ctx →
      (generateCodeCached oracle2 (generateCodeCached oracle1 cache p1 ctx).cache p2 ctx).code =
        (generateCodeCached oracle1 cache p1 ctx).code ∧
      (generateCodeCached oracle2 (generateCodeCached oracle1 cache p1 ctx).cache p2 ctx).usedLLM =
        false)
  ∧ (∀ oracle cache p ctx, isCacheable p = false →
      (generateCodeCached oracle cache p ctx).cache = cache)
  ∧ (∀ oracle cache p ctx, cacheLookup (getCacheKey p ctx) cache = none →
      (generateCodeCached oracle cache p ctx).usedLLM = true) := by
  refine ⟨?_, ?_, ?_⟩
  · intro oracle1 oracle2 cache p1 p2 ctx hca hkey
    unfold generateCodeCached
    rcases h : cacheLookup (getCacheKey p1 ctx) cache with _ | stored
    · simp only [h, hca, if_true]
      have hhit : cacheLookup (getCacheKey p2 ctx)
          ((getCacheKey p1 ctx, sanitizeStr oracle1) :: cache) =
            some (sanitizeStr oracle1) := by
        simp [cacheLookup, List.find?_cons, hkey]
      simp [hhit]
    · simp [h, hkey]
  · intro oracle cache p ctx hnc
    unfold generateCodeCached
    rcases h : cacheLookup (getCacheKey p ctx) cache with _ | stored
    · simp [h, hnc]
    · simp [h]
  · intro oracle cache p ctx h
    unfold generateCodeCached
    rcases hca : isCacheable p with _ | _ <;> simp [h, hca]

/-- C6 witness: the amended cache law at the concrete cacheable path
`src/utils/x.js` called twice with database `MongoDB`. -/
theorem c6_cache_witness :
    (generateCodeCached "const a=1;"
        (generateCodeCached "const a=1;" [] demoCacheablePath demoCtx).cache
        demoCacheablePath demoCtx).code =
      (generateCodeCached "const a=1;" [] demoCacheablePath demoCtx).code ∧
    (generateCodeCached "const a=1;"
        (generateCodeCached "const a=1;" [] demoCacheablePath demoCtx).cache
        demoCacheablePath demoCtx).usedLLM = false :=
  c6_cache_amended.1 "const a=1;" "const a=1;" [] demoCacheablePath demoCacheablePath
    demoCtx (by decide) rfl

/-! ## C7 -/

/-- C7 counterexample: with a store holding a record named `SuperUser`,
saving a record named `user` (a metacharacter-free name, on which the regex
is a literal case-insensitive substring test) matches `SuperUser` through
the regex of `findByName`, overwrites that record in place keeping its
name, and `findByName "user"` afterwards returns a document whose name is
`SuperUser`, not `user`. -/
theorem c7_save_find_counterexample :
    ((findByName "user" (saveDiagram demoInputC7 demoStoreC7).1).map StoredRecord.name =
        some "SuperUser") ∧
      ((saveDiagram demoInputC7 demoStoreC7).1.map StoredRecord.name = ["SuperUser"]) ∧
      demoInputC7.name = "user" ∧
      isLiteralRegexName demoInputC7.name = true := by
  refine ⟨by decide, by decide, rfl, by decide⟩

/-- C7 amended: for a saved name free of regex metacharacters — the domain
on which `new RegExp(name, 'i')` is a literal case-insensitive substring
test and this embedding is faithful — after `saveDiagram`, `findByName`
with the saved name returns the stored document, whose `description`,
`architecture` and `diagram` equal the saved ones; when no existing
record's name matches the saved name as a case-insensitive substring
pattern the document is new and keeps the saved name; when some record
matches, that first matching record is overwritten in place, keeping its
identity and its (possibly different) name — records are keyed by this
fuzzy regex match, not by exact name equality.  (For names with
metacharacters the program diverges further: `a^` matches nothing and `(`
makes `new RegExp` throw, so no round-trip is claimed there.) -/
theorem c7_save_find_amended (d : DiagramInput) (store : DiagramStore)
    (_hlit : isLiteralRegexName d.name = true) :
    findByName d.name (saveDiagram d store).1 = some (saveDiagram d store).2
  ∧ (saveDiagram d store).2.description = d.description
  ∧ (saveDiagram d store).2.architecture = d.architecture
  ∧ (saveDiagram d store).2.diagram = d.diagram
  ∧ (findByName d.name store = none → (saveDiagram d store).2.name = d.name)
  ∧ (∀ r0, findByName d.name store = some r0 →
      (saveDiagram d store).2.oid = r0.oid ∧ (saveDiagram d store).2.name = r0.name) := by
  rcases h : findByName d.name store with _ | r0
  · have hins : saveDiagram d store =
        (store ++ [⟨freshOid store, d.name, d.description, d.architecture, d.diagram,
          d.outputPath⟩],
         ⟨freshOid store, d.name, d.description, d.architecture, d.diagram, d.outputPath⟩) := by
      unfold saveDiagram
      rw [h]
    rw [hins]
    refine ⟨?_, rfl, rfl, rfl, fun _ => rfl, fun r1 hr1 => by cases hr1⟩
    unfold findByName at h ⊢
    rw [find?_append_none _ _ _ h]
    simp [List.find?_cons, regexTestCI_self]
  · have hfind : store.find? (fun r => regexTestCI d.name r.name) = some r0 := h
    have hp0 := List.find?_some hfind
    have hp : regexTestCI d.name r0.name = true := hp0
    have hupd : ∀ (l : DiagramStore), l.find? (fun x => regexTestCI d.name x.name) = some r0 →
        (updateFirst (fun x => regexTestCI d.name x.name)
            (fun _ => overwriteFields d r0) l).find? (fun x => regexTestCI d.name x.name) =
          some (overwriteFields d r0) := by
      intro l
      induction l with
      | nil => intro hl; simp at hl
      | cons r rest ih =>
        intro hl
        rcases hr : regexTestCI d.name r.name with _ | _
        · simp only [List.find?_cons, hr, cond_false] at hl
          simp only [updateFirst, hr, Bool.false_eq_true, if_false, List.find?_cons,
            cond_false]
          exact ih hl
        · simp only [List.find?_cons, hr, cond_true, Option.some.injEq] at hl
          subst hl
          have hpres : regexTestCI d.name (overwriteFields d r).name = true := hp
          simp [updateFirst, hr, List.find?_cons, hpres]
    have hsd : saveDiagram d store =
        (updateFirst (fun x => regexTestCI d.name x.name) (fun _ => overwriteFields d r0) store,
         overwriteFields d r0) := by
      unfold saveDiagram
      rw [h]
    rw [hsd]
    refine ⟨?_, rfl, rfl, rfl, ?_, ?_⟩
    · exact hupd store hfind
    · intro hnone
      cases hnone
    · intro r1 hr1
      cases hr1
      exact ⟨rfl, rfl⟩

/-- C7 witness: saving into an empty store keeps the saved name and the
saved payload is found again by `findByName`. -/
theorem c7_save_find_witness :
    (saveDiagram demoInputC7 []).2.name = demoInputC7.name :=
  (c7_save_find_amended demoInputC7 [] (by decide)).2.2.2.2.1 (by decide)

/-! ## Pipeline lemmas -/

theorem runCategoryFiles_written_mono (ok : FileSpec → Bool) (coe : Bool) :
    ∀ (files : List FileSpec) (st : GenState) (x : String), x ∈ st.written →
      x ∈ (runCategoryFiles ok coe files st).1.written := by
  intro files
  induction files with
  | nil => intro st x hx; exact hx
  | cons f rest ih =>
    intro st x hx
    rcases hf : ok f with _ | _
    · simp only [runCategoryFiles, hf, Bool.false_eq_true, if_false]
      split
      · exact ih _ x hx
      · exact hx
    · simp only [runCategoryFiles, hf, if_true]
      exact ih _ x (List.mem_append_left _ hx)

theorem runAllCategories_written_mono (ok : FileSpec → Bool) (coe : Bool)
    (a : Architecture) (starts : Nat × Nat × Nat × Nat × Nat) (st : GenState)
    (x : String) (hx : x ∈ st.written) :
    x ∈ (runAllCategories ok coe a starts st).1.written := by
  have step : ∀ (plan : List (List FileSpec × Nat)) (acc : GenState × Bool),
      x ∈ acc.1.written →
        x ∈ (plan.foldl (runCategoriesStep ok coe) acc).1.written := by
    intro plan
    induction plan with
    | nil => intro acc hacc; exact hacc
    | cons c rest ih =>
      intro acc hacc
      simp only [List.foldl_cons]
      apply ih
      unfold runCategoriesStep
      rcases hb : acc.2 with _ | _
      · simp only [Bool.false_eq_true, if_false]
        exact hacc
      · simp only [if_true]
        exact runCategoryFiles_written_mono ok coe _ _ x hacc
  exact step (categoryPlan a starts) (st, true) hx

/-! ## C9 -/

/-- C9: for every run of the complete-project pipeline, the recovery file
`<output>/.recovery.json` is present in the final tree exactly when the run
did not succeed: on `success = true` the file is removed at completion, and
a paused run (per-file failure without `continueOnError`) retains it. -/
theorem c9_recovery_removed_iff_success (arch0 : Architecture)
    (recovery : Option RecoveryState) (opts : RunOptions) (o : RunOracles) :
    recoveryName ∈ (generateCompleteProject arch0 recovery opts o).written ↔
      (generateCompleteProject arch0 recovery opts o).success = false := by
  have hmem0 : recoveryName ∈ (genPhase arch0 recovery opts o).1.written := by
    unfold genPhase
    exact runAllCategories_written_mono _ _ _ _ _ _ (by simp)
  have hmem1 : recoveryName ∈ (postGqState arch0 recovery opts o).written := by
    unfold postGqState
    split
    · exact List.mem_append_left _ hmem0
    · exact hmem0
  have hmem2 : recoveryName ∈ writtenAfterP6 arch0 recovery opts o := by
    unfold writtenAfterP6
    split
    · exact List.mem_append_left _ hmem1
    · exact hmem1
  show recoveryName ∈
      (if runSuccess arch0 recovery opts o then
        (writtenAfterP6 arch0 recovery opts o).filter (fun p => p != recoveryName)
      else writtenAfterP6 arch0 recovery opts o) ↔
    runSuccess arch0 recovery opts o = false
  rcases h : runSuccess arch0 recovery opts o with _ | _
  · simp [hmem2]
  · simp only [if_true]
    constructor
    · intro hin
      rcases List.mem_filter.mp hin with ⟨_, hne⟩
      simp at hne
    · intro hfalse
      cases hfalse


/-! ## C4 -/

/-- C4 counterexample: resuming the run recorded in `demoRecoveryC4`
(interrupted at model index 1, `fileCounter = 4` of `totalFiles = 5`), the
next file generated is `package.json` — the first configuration file — not
the model at index 2; `package.json`, already generated before the
interruption, is generated again; and the final `fileCounter` is 7, not
`totalFiles = 5`. -/
theorem c4_resume_counterexample :
    (generateCompleteProject demoArchC4 (some demoRecoveryC4) demoOpts demoOracles).counter = 7
  ∧ demoRecoveryC4.totalFiles = 5
  ∧ ((generateCompleteProject demoArchC4 (some demoRecoveryC4) demoOpts
      demoOracles).generated.drop 4).head? = some "package.json"
  ∧ List.count "package.json"
      (generateCompleteProject demoArchC4 (some demoRecoveryC4) demoOpts demoOracles).generated = 2
  ∧ demoRecoveryC4.currentCategory = some modelsLabel
  ∧ demoRecoveryC4.currentCategoryIndex = 1 := by
  refine ⟨by decide, rfl, by decide, by decide, rfl, rfl⟩

theorem runCategoryFiles_all_ok (ok : FileSpec → Bool) (coe : Bool) :
    ∀ (files : List FileSpec) (st : GenState), (∀ f ∈ files, ok f = true) →
      runCategoryFiles ok coe files st =
        (⟨st.counter + files.length, st.generated ++ files.map FileSpec.path,
          st.written ++ files.map FileSpec.path⟩, true) := by
  intro files
  induction files with
  | nil => intro st _; simp [runCategoryFiles]
  | cons f rest ih =>
    intro st hall
    have hf : ok f = true := hall f (by simp)
    simp only [runCategoryFiles, hf, if_true]
    rw [ih _ (fun g hg => hall g (by simp [hg]))]
    simp only [Prod.mk.injEq, GenState.mk.injEq, List.map_cons, List.length_cons,
      List.append_assoc, List.singleton_append, and_true, true_and]
    omega

theorem runCategoriesStep_all_ok (ok : FileSpec → Bool) (coe : Bool) (st : GenState)
    (files : List FileSpec) (s : Nat) (hall : ∀ f, ok f = true) :
    runCategoriesStep ok coe (st, true) (files, s) =
      (⟨st.counter + (files.drop s).length, st.generated ++ (files.drop s).map FileSpec.path,
        st.written ++ (files.drop s).map FileSpec.path⟩, true) := by
  unfold runCategoriesStep runCategory
  simp only [if_true]
  exact runCategoryFiles_all_ok ok coe _ _ (fun f _ => hall f)

/-- C4 amended: a resumed run sets the start index of the matched category
(here: the label containing `modelos`) to `currentCategoryIndex + 1` and
leaves every other category's start index at 0, so all configuration files
are regenerated before the remaining models, the controllers, routes and
remaining files are regenerated in full, and the final `fileCounter` equals
the recovered `fileCounter` plus the number of files processed after resume
(which can exceed `totalFiles`). -/
theorem c4_resume_amended (arch : Architecture) (r : RecoveryState) (opts : RunOptions)
    (o : RunOracles) (lbl : String)
    (hcat : r.currentCategory = some lbl)
    (hnc : jsIncludes lbl "configuración" = false)
    (hm : jsIncludes lbl "modelos" = true)
    (hall : ∀ f, o.fileOk f = true)
    (hgq : opts.includeGlobalQuery = false) :
    (generateCompleteProject arch (some r) opts o).generated =
      r.generatedFiles ++ (configFilesOf r.architecture).map FileSpec.path ++
        ((modelFilesOf r.architecture).drop (r.currentCategoryIndex + 1)).map FileSpec.path ++
        (controllerFilesOf r.architecture).map FileSpec.path ++
        (routeFilesOf r.architecture).map FileSpec.path ++
        (remainingFilesOf r.architecture).map FileSpec.path
  ∧ (generateCompleteProject arch (some r) opts o).counter =
      r.fileCounter + (configFilesOf r.architecture).length +
        ((modelFilesOf r.architecture).drop (r.currentCategoryIndex + 1)).length +
        (controllerFilesOf r.architecture).length +
        (routeFilesOf r.architecture).length +
        (remainingFilesOf r.architecture).length
  ∧ (generateCompleteProject arch (some r) opts o).success = true := by
  have hstarts : startsInit (some r) = (0, r.currentCategoryIndex + 1, 0, 0, 0) := by
    simp [startsInit, startIndices, hcat, hnc, hm]
  have hgen : genPhase arch (some r) opts o =
      (⟨r.fileCounter + (configFilesOf r.architecture).length +
          ((modelFilesOf r.architecture).drop (r.currentCategoryIndex + 1)).length +
          (controllerFilesOf r.architecture).length +
          (routeFilesOf r.architecture).length +
          (remainingFilesOf r.architecture).length,
        r.generatedFiles ++ (configFilesOf r.architecture).map FileSpec.path ++
          ((modelFilesOf r.architecture).drop (r.currentCategoryIndex + 1)).map FileSpec.path ++
          (controllerFilesOf r.architecture).map FileSpec.path ++
          (routeFilesOf r.architecture).map FileSpec.path ++
          (remainingFilesOf r.architecture).map FileSpec.path,
        [recoveryName] ++ (configFilesOf r.architecture).map FileSpec.path ++
          ((modelFilesOf r.architecture).drop (r.currentCategoryIndex + 1)).map FileSpec.path ++
          (controllerFilesOf r.architecture).map FileSpec.path ++
          (routeFilesOf r.architecture).map FileSpec.path ++
          (remainingFilesOf r.architecture).map FileSpec.path⟩, true) := by
    unfold genPhase runAllCategories
    rw [hstarts]
    simp only [categoryPlan, archUsed, counterInit, generatedInit, List.foldl_cons,
      List.foldl_nil]
    rw [runCategoriesStep_all_ok _ _ _ _ _ hall, runCategoriesStep_all_ok _ _ _ _ _ hall,
      runCategoriesStep_all_ok _ _ _ _ _ hall, runCategoriesStep_all_ok _ _ _ _ _ hall,
      runCategoriesStep_all_ok _ _ _ _ _ hall]
    simp [List.drop_zero]
  have htrig : gqTrigger arch (some r) opts o = false := by
    unfold gqTrigger
    rw [hgen, hgq]
    simp
  have hpost : postGqState arch (some r) opts o = (genPhase arch (some r) opts o).1 := by
    unfold postGqState
    rw [htrig]
    simp
  have hsucc : runSuccess arch (some r) opts o = true := by
    unfold runSuccess
    rw [htrig, hgen]
    simp
  refine ⟨?_, ?_, hsucc⟩
  · show (postGqState arch (some r) opts o).generated = _
    rw [hpost, hgen]
  · show (postGqState arch (some r) opts o).counter = _
    rw [hpost, hgen]

/-- C4 witness: the amended resume law at the recorded interruption in
`demoRecoveryC4` (model category, index 1, all generation succeeding). -/
theorem c4_resume_witness :
    (generateCompleteProject demoArchC4 (some demoRecoveryC4) demoOpts demoOracles).success =
      true :=
  (c4_resume_amended demoArchC4 demoRecoveryC4 demoOpts demoOracles modelsLabel rfl
    (by decide) (by decide) (fun _ => rfl) rfl).2.2

/-! ## C8 -/

/-- C8: when the diagram repository save throws, the pipeline writes the
sidecar `<output>/diagram.json` holding exactly the keys `architecture`,
`diagram` and `createdAt` (the fields of `SidecarFile`), returns a null
`diagramId`, and the run's success flag is unaffected by the repository
outcome — a repository failure never makes the run fail. -/
theorem c8_sidecar_on_save_failure (arch0 : Architecture) (recovery : Option RecoveryState)
    (opts : RunOptions) (o : RunOracles) (d : DiagramData) (e : String)
    (hd : o.diagramOutcome = .ok d) (hs : o.saveOutcome d = .error e) :
    (generateCompleteProject arch0 recovery opts o).sidecar =
      some ⟨archUsed arch0 recovery, d, o.now⟩
  ∧ (generateCompleteProject arch0 recovery opts o).diagramId = none
  ∧ "diagram.json" ∈ (generateCompleteProject arch0 recovery opts o).written
  ∧ (∀ g, (generateCompleteProject arch0 recovery opts { o with saveOutcome := g }).success =
      (generateCompleteProject arch0 recovery opts o).success) := by
  have hp6 : phase6 (archUsed arch0 recovery) o =
      (none, some ⟨archUsed arch0 recovery, d, o.now⟩, some d) := by
    unfold phase6
    rw [hd]
    dsimp only
    rw [hs]
  refine ⟨?_, ?_, ?_, ?_⟩
  · show (phase6 (archUsed arch0 recovery) o).2.1 = _
    rw [hp6]
  · show (phase6 (archUsed arch0 recovery) o).1 = none
    rw [hp6]
  · have hw : "diagram.json" ∈ writtenAfterP6 arch0 recovery opts o := by
      unfold writtenAfterP6
      rw [hp6]
      simp
    show "diagram.json" ∈
      (if runSuccess arch0 recovery opts o then
        (writtenAfterP6 arch0 recovery opts o).filter (fun p => p != recoveryName)
      else writtenAfterP6 arch0 recovery opts o)
    rcases hsc : runSuccess arch0 recovery opts o with _ | _
    · simpa using hw
    · simp only [if_true]
      exact List.mem_filter.mpr ⟨hw, by decide⟩
  · intro g
    rfl

/-- C8 witness: the sidecar law at a fresh run whose repository save throws
`connect ECONNREFUSED`. -/
theorem c8_sidecar_witness :
    (generateCompleteProject demoArchC4 none demoOpts demoOraclesSaveFail).diagramId = none :=
  (c8_sidecar_on_save_failure demoArchC4 none demoOpts demoOraclesSaveFail demoDiagram
    "connect ECONNREFUSED" rfl rfl).2.1

/-! ## C1 -/

theorem dropToOpen_none_iff (s : List Char) :
    dropToOpen s = none ↔ ∀ c ∈ s, c ≠ lbrace := by
  induction s with
  | nil => simp [dropToOpen]
  | cons c t ih =>
    by_cases hc : c = lbrace
    · simp [dropToOpen, hc]
    · simp [dropToOpen, hc, ih]

theorem dropToOpen_some (s u : List Char) (h : dropToOpen s = some u) :
    ∃ pre v, s = pre ++ u ∧ (∀ c ∈ pre, c ≠ lbrace) ∧ u = lbrace :: v := by
  induction s generalizing u with
  | nil => cases h
  | cons c t ih =>
    by_cases hc : c = lbrace
    · simp only [dropToOpen, hc, if_true, Option.some.injEq] at h
      subst hc
      exact ⟨[], t, by simp [h.symm], by simp, h.symm⟩
    · simp only [dropToOpen, hc, if_false] at h
      rcases ih u h with ⟨pre, v, hsplit, hpre, hu⟩
      exact ⟨c :: pre, v, by simp [hsplit], by simpa [hc] using hpre, hu⟩

theorem cutAtLastClose_none_iff (v : List Char) :
    cutAtLastClose v = none ↔ ∀ c ∈ v, c ≠ rbrace := by
  induction v with
  | nil => simp [cutAtLastClose]
  | cons c t ih =>
    rcases h' : cutAtLastClose t with _ | r
    · by_cases hc : c = rbrace
      · simp [cutAtLastClose, h', hc]
      · constructor
        · intro _ x hx
          rcases List.mem_cons.mp hx with rfl | hx'
          · exact hc
          · exact ih.mp h' x hx'
        · intro _
          simp [cutAtLastClose, h', hc]
    · have : ¬ ∀ c ∈ t, c ≠ rbrace := fun hall => by
        rw [← ih] at hall
        rw [hall] at h'
        cases h'
      simp only [cutAtLastClose, h']
      constructor
      · intro hcontra; cases hcontra
      · intro hall
        exact absurd (fun x hx => hall x (by simp [hx])) this

theorem cutAtLastClose_some (v r : List Char) (h : cutAtLastClose v = some r) :
    ∃ init suf, v = init ++ rbrace :: suf ∧ r = init ++ [rbrace] ∧
      ∀ c ∈ suf, c ≠ rbrace := by
  induction v generalizing r with
  | nil => cases h
  | cons c t ih =>
    rcases h' : cutAtLastClose t with _ | r'
    · by_cases hc : c = rbrace
      · simp only [cutAtLastClose, h', hc, if_true, Option.some.injEq] at h
        subst hc
        exact ⟨[], t, by simp, h.symm, (cutAtLastClose_none_iff t).mp h'⟩
      · simp [cutAtLastClose, h', hc] at h
    · simp only [cutAtLastClose, h', Option.some.injEq] at h
      rcases ih r' h' with ⟨init, suf, hsplit, hr, hsuf⟩
      exact ⟨c :: init, suf, by simp [hsplit], by simp [← h, hr], hsuf⟩

theorem rbrace_in_tail :
    ∀ (pre v t₁ w : List Char), pre ++ lbrace :: v = t₁ ++ lbrace :: w →
      (∀ c ∈ pre, c ≠ lbrace) → rbrace ∈ w → rbrace ∈ v := by
  intro pre
  induction pre with
  | nil =>
    intro v t₁ w heq _ hw
    cases t₁ with
    | nil =>
      simp only [List.nil_append, List.cons.injEq] at heq
      exact heq.2 ▸ hw
    | cons x t₁' =>
      simp only [List.nil_append, List.cons_append, List.cons.injEq] at heq
      rw [heq.2]
      exact List.mem_append_right _ (List.mem_cons_of_mem _ hw)
  | cons p pre' ih =>
    intro v t₁ w heq hpre hw
    cases t₁ with
    | nil =>
      simp only [List.cons_append, List.nil_append, List.cons.injEq] at heq
      exact absurd heq.1 (hpre p (by simp))
    | cons x t₁' =>
      simp only [List.cons_append, List.cons.injEq] at heq
      exact ih v t₁' w heq.2 (fun c hc => hpre c (by simp [hc])) hw

/-- C1 amended: `generateArchitecture` extracts the span matched by the
greedy regex `/\{[\s\S]*\}/` — from the first `{` that has a later `}` to
the last `}` of the response — not the first balanced `{…}` slice; it fails
exactly when the response contains no `{` followed by a later `}` (and, in
the source, also when the extracted span fails to parse as JSON). -/
theorem c1_extraction_amended (s : List Char) :
    (jsObjectMatch s = none ↔ ¬ ∃ t₁ t₂ t₃, s = t₁ ++ lbrace :: (t₂ ++ rbrace :: t₃))
  ∧ (∀ m, jsObjectMatch s = some m →
      ∃ t₁ t₂ t₃, s = t₁ ++ (lbrace :: (t₂ ++ [rbrace])) ++ t₃ ∧
        m = lbrace :: (t₂ ++ [rbrace]) ∧
        (∀ c ∈ t₁, c ≠ lbrace) ∧ (∀ c ∈ t₃, c ≠ rbrace)) := by
  have hsome : ∀ m, jsObjectMatch s = some m →
      ∃ t₁ t₂ t₃, s = t₁ ++ (lbrace :: (t₂ ++ [rbrace])) ++ t₃ ∧
        m = lbrace :: (t₂ ++ [rbrace]) ∧
        (∀ c ∈ t₁, c ≠ lbrace) ∧ (∀ c ∈ t₃, c ≠ rbrace) := by
    intro m hm
    unfold jsObjectMatch at hm
    rcases hdo : dropToOpen s with _ | u
    · simp only [hdo] at hm
      cases hm
    · rcases u with _ | ⟨c, v⟩
      · simp only [hdo] at hm
        cases hm
      · simp only [hdo] at hm
        rcases hcut : cutAtLastClose v with _ | r
        · simp only [hcut] at hm
          cases hm
        · simp only [hcut, Option.some.injEq] at hm
          subst hm
          rcases dropToOpen_some s (c :: v) hdo with ⟨pre, v', hsplit, hpre, hu⟩
          injection hu with hc hv
          rcases cutAtLastClose_some v r hcut with ⟨init, suf, hvsplit, hr, hsuf⟩
          refine ⟨pre, init, suf, ?_, ?_, hpre, hsuf⟩
          · rw [hsplit, hc, hvsplit]
            simp
          · rw [hc, hr]
  constructor
  · constructor
    · intro hnone
      rintro ⟨t₁, t₂, t₃, hdecomp⟩
      unfold jsObjectMatch at hnone
      rcases hdo : dropToOpen s with _ | u
      · have hnol := (dropToOpen_none_iff s).mp hdo
        exact hnol lbrace (by rw [hdecomp]; simp) rfl
      · rcases u with _ | ⟨c, v⟩
        · rcases dropToOpen_some s [] hdo with ⟨pre, v', _, _, hu⟩
          cases hu
        · simp only [hdo] at hnone
          rcases hcut : cutAtLastClose v with _ | r
          · rcases dropToOpen_some s (c :: v) hdo with ⟨pre, v', hsplit, hpre, hu⟩
            injection hu with hc hv
            subst hc
            have hrb : rbrace ∈ v := by
              apply rbrace_in_tail pre v t₁ (t₂ ++ rbrace :: t₃)
              · rw [← hsplit]
                exact hdecomp
              · exact hpre
              · simp
            exact (cutAtLastClose_none_iff v).mp hcut rbrace hrb rfl
          · simp only [hcut] at hnone
            cases hnone
    · intro hnodecomp
      rcases hjm : jsObjectMatch s with _ | m
      · rfl
      · exfalso
        rcases hsome m hjm with ⟨t₁, t₂, t₃, hdecomp, _, _, _⟩
        exact hnodecomp ⟨t₁, t₂, t₃, by rw [hdecomp]; simp⟩
  · exact hsome

/-- C1 counterexample: on the response `a{"k":1} }` the balanced-slice
extraction the claim describes yields `{"k":1}` (which is valid JSON), but
the source's greedy regex extracts `{"k":1} }` — the two extractions differ,
and the regex span is not a balanced JSON object. -/
theorem c1_extraction_counterexample :
    firstJsonObject demoC1Text = some [lbrace, dquote, 'k', dquote, ':', '1', rbrace]
  ∧ jsObjectMatch demoC1Text =
      some [lbrace, dquote, 'k', dquote, ':', '1', rbrace, ' ', rbrace]
  ∧ jsObjectMatch demoC1Text ≠ firstJsonObject demoC1Text := by
  refine ⟨by decide, by decide, by decide⟩

/-- C1 witness: the amended extraction law applied at `a{"k":1} }`. -/
theorem c1_extraction_witness :
    ∃ t₁ t₂ t₃,
      demoC1Text = t₁ ++ (lbrace :: (t₂ ++ [rbrace])) ++ t₃ ∧
        [lbrace, dquote, 'k', dquote, ':', '1', rbrace, ' ', rbrace] =
          lbrace :: (t₂ ++ [rbrace]) ∧
        (∀ c ∈ t₁, c ≠ lbrace) ∧ (∀ c ∈ t₃, c ≠ rbrace) :=
  (c1_extraction_amended demoC1Text).2 _ (by decide)


/-- C2 amended: `validateArchitecture` runs its repair block only when one of
the four folder checks (`path.includes('/models')` etc.) fails; when all four
pass the architecture is returned unchanged, even if the entry point,
`package.json` or `.env.example` are missing.  Whenever the repairer
returns, each canonical component is present as a folder (either a folder
path containing `/models` was already there, or the literal folder `models`
was appended — likewise for controllers, routes, config); and when the
repair block does run, it appends `app.js` (useTemplate, templateType
`main`) if no entry-point path is present after the entity files, and
`package.json` and `.env.example` (useTemplate, templateType `config`) if no
file with those paths is present. -/
theorem c2_repair_amended (ents : List String) (a : Architecture) :
    (validateChecksPass a = true → validateArchitecture ents a = a)
  ∧ (validateArchitecture ents a).folders.any
      (fun f => jsIncludes f.path "/models" || f.path == "models") = true
  ∧ (validateArchitecture ents a).folders.any
      (fun f => jsIncludes f.path "/controllers" || f.path == "controllers") = true
  ∧ (validateArchitecture ents a).folders.any
      (fun f => jsIncludes f.path "/routes" || f.path == "routes") = true
  ∧ (validateArchitecture ents a).folders.any
      (fun f => jsIncludes f.path "/config" || f.path == "config") = true
  ∧ (validateChecksPass a = false →
      ((filesWithEntities ents a).all (fun f => !isMainPath f.path) = true →
        appMainFile ∈ (validateArchitecture ents a).files)
      ∧ ((filesWithEntities ents a).all (fun f => f.path != "package.json") = true →
          packageJsonFile ∈ (validateArchitecture ents a).files)
      ∧ ((filesWithEntities ents a).all
            (fun f => !(f.path == ".env.example" || f.path == ".env")) = true →
          envExampleFile ∈ (validateArchitecture ents a).files)) := by
  by_cases hpass : validateChecksPass a = true
  · have hid : validateArchitecture ents a = a := by
      unfold validateArchitecture
      rw [hpass]
      simp
    have hall4 := hpass
    unfold validateChecksPass at hall4
    simp only [Bool.and_eq_true] at hall4
    obtain ⟨⟨⟨hm, hc⟩, hr⟩, hk⟩ := hall4
    refine ⟨fun _ => hid, ?_, ?_, ?_, ?_, fun hfail => by rw [hpass] at hfail; cases hfail⟩
    · rw [hid]
      rcases List.any_eq_true.mp hm with ⟨f, hf, hp⟩
      exact List.any_eq_true.mpr ⟨f, hf, by simp [hp]⟩
    · rw [hid]
      rcases List.any_eq_true.mp hc with ⟨f, hf, hp⟩
      exact List.any_eq_true.mpr ⟨f, hf, by simp [hp]⟩
    · rw [hid]
      rcases List.any_eq_true.mp hr with ⟨f, hf, hp⟩
      exact List.any_eq_true.mpr ⟨f, hf, by simp [hp]⟩
    · rw [hid]
      rcases List.any_eq_true.mp hk with ⟨f, hf, hp⟩
      exact List.any_eq_true.mpr ⟨f, hf, by simp [hp]⟩
  · have hfailb : validateChecksPass a = false := by
      rcases h : validateChecksPass a with _ | _
      · rfl
      · exact absurd h hpass
    have hout : validateArchitecture ents a =
        { folders := repairedFolders a, files := filesWithEnv ents a } := by
      unfold validateArchitecture
      rw [hfailb]
      simp
    have hfold : ∀ f : FolderSpec, f ∈ a.folders → f ∈ repairedFolders a := by
      intro f hf
      unfold repairedFolders
      exact List.mem_append_left _ (List.mem_append_left _ (List.mem_append_left _
        (List.mem_append_left _ hf)))
    refine ⟨fun hp => absurd hp hpass, ?_, ?_, ?_, ?_, fun _ => ⟨?_, ?_, ?_⟩⟩
    · rw [hout]
      rcases hm : hasModelsFolder a with _ | _
      · refine List.any_eq_true.mpr ⟨⟨"models", "Modelos de datos y esquemas"⟩, ?_, by decide⟩
        unfold repairedFolders
        simp [hm]
      · rcases List.any_eq_true.mp hm with ⟨f, hf, hp⟩
        exact List.any_eq_true.mpr ⟨f, hfold f hf, by simp [hp]⟩
    · rw [hout]
      rcases hm : hasControllersFolder a with _ | _
      · refine List.any_eq_true.mpr
          ⟨⟨"controllers", "Controladores para la lógica de negocio"⟩, ?_, by decide⟩
        unfold repairedFolders
        simp [hm]
      · rcases List.any_eq_true.mp hm with ⟨f, hf, hp⟩
        exact List.any_eq_true.mpr ⟨f, hfold f hf, by simp [hp]⟩
    · rw [hout]
      rcases hm : hasRoutesFolder a with _ | _
      · refine List.any_eq_true.mpr ⟨⟨"routes", "Definición de rutas API"⟩, ?_, by decide⟩
        unfold repairedFolders
        simp [hm]
      · rcases List.any_eq_true.mp hm with ⟨f, hf, hp⟩
        exact List.any_eq_true.mpr ⟨f, hfold f hf, by simp [hp]⟩
    · rw [hout]
      rcases hm : hasConfigFolder a with _ | _
      · refine List.any_eq_true.mpr ⟨⟨"config", "Archivos de configuración"⟩, ?_, by decide⟩
        unfold repairedFolders
        simp [hm]
      · rcases List.any_eq_true.mp hm with ⟨f, hf, hp⟩
        exact List.any_eq_true.mpr ⟨f, hfold f hf, by simp [hp]⟩
    · intro hnomain
      rw [hout]
      have hany : (filesWithEntities ents a).any (fun f => isMainPath f.path) = false := by
        rcases h : (filesWithEntities ents a).any (fun f => isMainPath f.path) with _ | _
        · rfl
        · rcases List.any_eq_true.mp h with ⟨f, hf, hp⟩
          have hq := List.all_eq_true.mp hnomain f hf
          simp [hp] at hq
      have happ : appMainFile ∈ filesWithMain ents a := by
        unfold filesWithMain
        simp [hany]
      show appMainFile ∈ filesWithEnv ents a
      unfold filesWithEnv filesWithPkg
      split
      · split
        · exact happ
        · exact List.mem_append_left _ happ
      · split
        · exact List.mem_append_left _ happ
        · exact List.mem_append_left _ (List.mem_append_left _ happ)
    · intro hnopkg
      rw [hout]
      have h1 : (filesWithEntities ents a).any (fun f => f.path == "package.json") = false := by
        rcases h : (filesWithEntities ents a).any (fun f => f.path == "package.json") with _ | _
        · rfl
        · rcases List.any_eq_true.mp h with ⟨f, hf, hp⟩
          have hq := List.all_eq_true.mp hnopkg f hf
          rw [(beq_iff_eq ..).mp hp] at hq
          simp at hq
      have h2 : (filesWithMain ents a).any (fun f => f.path == "package.json") = false := by
        unfold filesWithMain
        split
        · exact h1
        · simp only [List.any_append, h1, Bool.false_or]
          decide
      have hpkg : packageJsonFile ∈ filesWithPkg ents a := by
        unfold filesWithPkg
        simp [h2]
      show packageJsonFile ∈ filesWithEnv ents a
      unfold filesWithEnv
      split
      · exact hpkg
      · exact List.mem_append_left _ hpkg
    · intro hnoenv
      rw [hout]
      have h1 : (filesWithEntities ents a).any
          (fun f => f.path == ".env.example" || f.path == ".env") = false := by
        rcases h : (filesWithEntities ents a).any
            (fun f => f.path == ".env.example" || f.path == ".env") with _ | _
        · rfl
        · rcases List.any_eq_true.mp h with ⟨f, hf, hp⟩
          have hq := List.all_eq_true.mp hnoenv f hf
          simp [hp] at hq
      have h2 : (filesWithMain ents a).any
          (fun f => f.path == ".env.example" || f.path == ".env") = false := by
        unfold filesWithMain
        split
        · exact h1
        · simp only [List.any_append, h1, Bool.false_or]
          decide
      have h3 : (filesWithPkg ents a).any
          (fun f => f.path == ".env.example" || f.path == ".env") = false := by
        unfold filesWithPkg
        split
        · exact h2
        · simp only [List.any_append, h2, Bool.false_or]
          decide
      show envExampleFile ∈ filesWithEnv ents a
      unfold filesWithEnv
      simp [h3]

/-- C2 witness: the amended repair law at an architecture with no folders
and no files, entity list `["user"]`: the repair block runs and appends the
entry point, manifest and environment example. -/
theorem c2_repair_witness :
    appMainFile ∈ (validateArchitecture ["user"] ⟨[], []⟩).files ∧
      packageJsonFile ∈ (validateArchitecture ["user"] ⟨[], []⟩).files ∧
      envExampleFile ∈ (validateArchitecture ["user"] ⟨[], []⟩).files :=
  ⟨((c2_repair_amended ["user"] ⟨[], []⟩).2.2.2.2.2 (by decide)).1 (by decide),
   ((c2_repair_amended ["user"] ⟨[], []⟩).2.2.2.2.2 (by decide)).2.1 (by decide),
   ((c2_repair_amended ["user"] ⟨[], []⟩).2.2.2.2.2 (by decide)).2.2 (by decide)⟩

/-! ## C5 -/

theorem jsTrim_btick_ends (M : List Char) :
    jsTrim (btick :: (M ++ [btick])) = btick :: (M ++ [btick]) := by
  have h1 : btick.isWhitespace = false := by decide
  unfold jsTrim
  rw [List.dropWhile_cons]
  simp only [h1, Bool.false_eq_true, if_false]
  have hrev : (btick :: (M ++ [btick])).reverse = btick :: ((btick :: M).reverse) := by
    simp
  rw [hrev, List.dropWhile_cons]
  simp only [h1, Bool.false_eq_true, if_false]
  simp

theorem afterFenceOpen_lang (lang rest : List Char)
    (h : ∀ c ∈ lang, jsWordChar c = true) :
    afterFenceOpen (lang ++ '\n' :: rest) = some rest := by
  induction lang with
  | nil => simp [afterFenceOpen]
  | cons c t ih =>
    have hc : jsWordChar c = true := h c (by simp)
    have hcn : (c == '\n') = false := by
      rcases h' : c == '\n' with _ | _
      · rfl
      · rw [(beq_iff_eq ..).mp h'] at hc
        exact absurd hc (by decide)
    simp only [List.cons_append, afterFenceOpen, hcn, Bool.false_eq_true, if_false, hc,
      if_true]
    exact ih (fun x hx => h x (by simp [hx]))

theorem removeFirstFenceLine_fence (lang rest : List Char)
    (h : ∀ c ∈ lang, jsWordChar c = true) :
    removeFirstFenceLine true (btick :: btick :: btick :: (lang ++ '\n' :: rest)) = rest := by
  have hm : matchFence (btick :: btick :: btick :: (lang ++ '\n' :: rest)) = some rest := by
    unfold matchFence
    simp [afterFenceOpen_lang lang rest h]
  simp only [removeFirstFenceLine, if_true, hm]

theorem removeFirstCloseFence_body (body : List Char) (hnb : btick ∉ body) :
    removeFirstCloseFence (body ++ '\n' :: [btick, btick, btick]) = body := by
  induction body with
  | nil => decide
  | cons x t ih =>
    have hfence : isCloseFenceHere (x :: (t ++ '\n' :: [btick, btick, btick])) = false := by
      unfold isCloseFenceHere
      cases t with
      | nil =>
        have h2 : (btick == '\n') = false := by decide
        simp [listPrefixOf, h2]
      | cons y t' =>
        have hy : (btick == y) = false := by
          rcases h' : btick == y with _ | _
          · rfl
          · exact absurd (by simp [(beq_iff_eq ..).mp h']) hnb
        simp [listPrefixOf, hy]
    simp only [List.cons_append, removeFirstCloseFence, hfence, Bool.false_eq_true, if_false,
      List.append_eq]
    rw [ih (fun hmem => hnb (by simp [hmem]))]

theorem matchFence_non_btick (c : Char) (rest : List Char) (h : (c == btick) = false) :
    matchFence (c :: rest) = none := by
  match rest with
  | [] => rfl
  | [x] => rfl
  | x :: y :: t => simp [matchFence, h]

theorem removeAllFenceLinesF_no_btick :
    ∀ (fuel : Nat) (l : List Char), btick ∉ l → removeAllFenceLinesF fuel l = l := by
  intro fuel
  induction fuel with
  | zero => intro l _; cases l <;> rfl
  | succ n ih =>
    intro l hl
    cases l with
    | nil => rfl
    | cons c rest =>
      have hc : (c == btick) = false := by
        rcases h' : c == btick with _ | _
        · rfl
        · exact absurd (by simp [(beq_iff_eq ..).mp h']) hl
      simp only [removeAllFenceLinesF, matchFence_non_btick c rest hc]
      rw [ih rest (fun hmem => hl (by simp [hmem]))]

theorem removeAllNlFenceF_no_btick :
    ∀ (fuel : Nat) (l : List Char), btick ∉ l → removeAllNlFenceF fuel l = l := by
  intro fuel
  induction fuel with
  | zero => intro l _; cases l <;> rfl
  | succ n ih =>
    intro l hl
    cases l with
    | nil => rfl
    | cons c rest =>
      have hpre : listPrefixOf [btick, btick, btick] rest = false := by
        cases rest with
        | nil => rfl
        | cons y t =>
          have hy : (btick == y) = false := by
            rcases h' : btick == y with _ | _
            · rfl
            · exact absurd (by simp [(beq_iff_eq ..).mp h']) hl
          simp [listPrefixOf, hy]
      simp only [removeAllNlFenceF, hpre, Bool.and_false, Bool.false_eq_true, if_false]
      rw [ih rest (fun hmem => hl (by simp [hmem]))]

theorem matchFilepathAt_non_slash (c : Char) (rest : List Char)
    (h : (c == '/') = false) : matchFilepathAt (c :: rest) = none := by
  match rest with
  | [] => rfl
  | x :: t => simp [matchFilepathAt, h]

theorem removeFilepathLinesF_no_slash :
    ∀ (fuel : Nat) (b : Bool) (l : List Char), '/' ∉ l →
      removeFilepathLinesF fuel b l = l := by
  intro fuel
  induction fuel with
  | zero => intro b l _; cases l <;> rfl
  | succ n ih =>
    intro b l hl
    cases l with
    | nil => rfl
    | cons c rest =>
      have hc : (c == '/') = false := by
        rcases h' : c == '/' with _ | _
        · rfl
        · exact absurd (by simp [(beq_iff_eq ..).mp h']) hl
      have hrec := ih (c == '\n') rest (fun hmem => hl (by simp [hmem]))
      cases b with
      | false =>
        simp only [removeFilepathLinesF, Bool.false_eq_true, if_false]
        rw [hrec]
      | true =>
        simp only [removeFilepathLinesF, if_true, matchFilepathAt_non_slash c rest hc]
        rw [hrec]

/-- C5 counterexample: for the mock LLM reply
`` ```javascript\nconst x=1;\n``` `` the sanitizer returns exactly
`const x=1;` — the `\n```$` replace removes the newline together with the
closing fence — not `const x=1;\n` as the claim states. -/
theorem c5_fence_strip_counterexample :
    generateCodeSanitize demoFencedReply = "const x=1;".toList
  ∧ generateCodeSanitize demoFencedReply ≠ ("const x=1;" ++ "\n").toList := by
  refine ⟨by decide, by decide⟩

/-- C5 amended: the sanitizer removes a leading fence line with its language
tag and newline, and the trailing fence together with the newline that
precedes it: for every fenced single-block reply whose language tag is made
of word characters and whose body contains no backtick and no slash, the
returned content is exactly the body — in particular the trailing newline of
the body line is consumed with the closing fence, and `// filepath:` lines
(which need a slash) would be blanked rather than deleted. -/
theorem c5_fence_strip_amended (lang body : List Char)
    (hlang : ∀ c ∈ lang, jsWordChar c = true)
    (hnb : btick ∉ body)
    (hns : '/' ∉ body) :
    generateCodeSanitize
      (btick :: btick :: btick :: (lang ++ '\n' :: (body ++ '\n' :: [btick, btick, btick])))
      = body := by
  have htrim : jsTrim
      (btick :: btick :: btick :: (lang ++ '\n' :: (body ++ '\n' :: [btick, btick, btick])))
      = btick :: btick :: btick :: (lang ++ '\n' :: (body ++ '\n' :: [btick, btick, btick])) := by
    have h := jsTrim_btick_ends
      (btick :: btick :: (lang ++ '\n' :: (body ++ '\n' :: [btick, btick])))
    have hshape :
        btick :: ((btick :: btick :: (lang ++ '\n' :: (body ++ '\n' :: [btick, btick]))) ++
          [btick]) =
        btick :: btick :: btick :: (lang ++ '\n' :: (body ++ '\n' :: [btick, btick, btick])) := by
      simp
    rw [hshape] at h
    exact h
  unfold generateCodeSanitize cleanMarkdownDelimiters
  rw [htrim]
  rw [removeFirstFenceLine_fence lang (body ++ '\n' :: [btick, btick, btick]) hlang]
  rw [removeFirstCloseFence_body body hnb]
  unfold removeAllFenceLines
  rw [removeAllFenceLinesF_no_btick body.length body hnb]
  unfold removeAllNlFence
  rw [removeAllNlFenceF_no_btick body.length body hnb]
  unfold removeFilepathLines
  rw [removeFilepathLinesF_no_slash body.length true body hns]

/-- C5 witness: the amended sanitisation law at the concrete mock reply
(language tag `javascript`, body `const x=1;`). -/
theorem c5_fence_strip_witness :
    generateCodeSanitize
      (btick :: btick :: btick ::
        ("javascript".toList ++ '\n' :: ("const x=1;".toList ++ '\n' :: [btick, btick, btick])))
      = "const x=1;".toList :=
  c5_fence_strip_amended "javascript".toList "const x=1;".toList (by decide) (by decide)
    (by decide)
